import Mathlib

/-!
Verification of the Structural Health Engine demos (ChessIA repository).

Shallow embedding of the core modules:
* `CompareV42` — `engine/compare_v42.py` (scenario simulation, classification, ranking)
* `Demo`      — `engine/demo.py` (capacity graph, structural metrics H, H_eff, S)
* `MclChess`  — `engine/mcl_chess.py` (board-domain holistic metrics)
* `RateLimiter` — `engine/rate_limiter.py` (sliding-window rate limiter, cost estimator)

Python floats are modelled by `ℚ` (all constants appearing in the code and in the
claims are exactly representable, and the operations involved — comparison,
subtraction, `max`, division by constants — are exact on them); the IEEE special
values needed by the finiteness claim are modelled separately by `PyFloat`.
Fallible code returns `Except String`.
-/

namespace CompareV42

/-- Embedding of `validate_positive_float`'s max-value check
(`if max_val is not None and value > max_val: raise`). -/
def check_max_val (value : ℚ) (name : String) (maxVal : Option ℚ) : Except String ℚ :=
  match maxVal with
  | some m => if m < value then Except.error (name ++ " excede maximo permitido") else Except.ok value
  | none => Except.ok value

/-- Embedding of `validate_positive_float` (compare_v42.py lines 19-36).
The `isinstance` check is static here; `float(value)` is the identity on `ℚ`. -/
def validate_positive_float (value : ℚ) (name : String) (maxVal : Option ℚ) (allowZero : Bool) :
    Except String ℚ :=
  if allowZero then
    if value < 0 then Except.error (name ++ " no puede ser negativo")
    else check_max_val value name maxVal
  else
    if value ≤ 0 then Except.error (name ++ " debe ser > 0")
    else check_max_val value name maxVal

/-- Embedding of `validate_steps` (compare_v42.py lines 39-45). -/
def validate_steps (steps : ℕ) : Except String ℕ :=
  if 1 ≤ steps ∧ steps ≤ 1000 then Except.ok steps
  else Except.error "steps fuera de rango [1, 1000]"

/-- Embedding of the `Scenario` data (compare_v42.py lines 84-113); the
constructor-time validation is captured by `Scenario.Valid` below. -/
structure Scenario where
  name : String
  H_eff_init : ℚ
  decay : ℚ
  deriving DecidableEq

/-- The conditions enforced by `Scenario.__init__`: non-empty name, and both
numeric fields validated with `allow_zero=False, max_val=10000`. -/
def Scenario.Valid (s : Scenario) : Prop :=
  s.name ≠ "" ∧ 0 < s.H_eff_init ∧ s.H_eff_init ≤ 10000 ∧ 0 < s.decay ∧ s.decay ≤ 10000

/-- The loop body of `Scenario.simulate` (compare_v42.py lines 136-140):
`values.append(H); H = max(H - decay, 0)`, run `steps` times. -/
def simulateLoop (H decay : ℚ) : ℕ → List ℚ
  | 0 => []
  | k + 1 => H :: simulateLoop (max (H - decay) 0) decay k

/-- Embedding of `Scenario.simulate` (compare_v42.py lines 115-150). -/
def Scenario.simulate (s : Scenario) (steps : ℕ) : Except String (List ℚ) :=
  match validate_steps steps with
  | Except.error e => Except.error e
  | Except.ok st => Except.ok (simulateLoop s.H_eff_init s.decay st)

/-- Embedding of `classify` (compare_v42.py lines 156-206) over `ℚ`. -/
def classify (H_eff dH alpha_h_min alpha_decay_max beta_h_min : ℚ) : Except String String := do
  let H_eff ← validate_positive_float H_eff "H_eff" none true
  let dH ← validate_positive_float dH "dH" none true
  let alpha_h_min ← validate_positive_float alpha_h_min "alpha_h_min" none true
  let alpha_decay_max ← validate_positive_float alpha_decay_max "alpha_decay_max" none true
  let beta_h_min ← validate_positive_float beta_h_min "beta_h_min" none true
  if alpha_h_min < H_eff ∧ dH < alpha_decay_max then pure "Alpha"
  else if beta_h_min < H_eff then pure "Beta"
  else pure "Gamma"

/-- The ranking record built inside `compare` (compare_v42.py lines 267-272);
`cls` embeds the dict key `"class"` (a Lean keyword). -/
structure RankEntry where
  name : String
  H_eff : ℚ
  dH_eff_dt : ℚ
  cls : String
  deriving DecidableEq

/-- The value `series[-1] if steps > 1 else s.H_eff_init` computed in
`compare` (compare_v42.py line 263); `series` is `simulateLoop` applied to the
scenario's fields, and the `getD 0` default is never reached for `steps ≥ 1`. -/
def current_h_eff (s : Scenario) (steps : ℕ) : ℚ :=
  if 1 < steps then ((simulateLoop s.H_eff_init s.decay steps).getLast?).getD 0
  else s.H_eff_init

/-- The inner `try` body of `compare`'s per-scenario loop (compare_v42.py lines
261-276): a scenario whose `simulate` or `classify` raises is skipped (`none`). -/
def process_scenario (s : Scenario) (alpha_h_min alpha_decay_max beta_h_min : ℚ) (steps : ℕ) :
    Option RankEntry :=
  match s.simulate steps with
  | Except.error _ => none
  | Except.ok _ =>
    match classify (current_h_eff s steps) s.decay alpha_h_min alpha_decay_max beta_h_min with
    | Except.error _ => none
    | Except.ok cls => some ⟨s.name, current_h_eff s steps, s.decay, cls⟩

/-- An element of the dynamically-typed Python list handed to `compare`:
either an actual `Scenario` or a value of some other runtime type. -/
inductive CompareElem where
  | scen (s : Scenario)
  | nonScenario (typeName : String)
  deriving DecidableEq

/-- The dynamically-typed argument of `compare`: a list, or some other type. -/
inductive CompareArg where
  | listArg (xs : List CompareElem)
  | nonList (typeName : String)

/-- The per-element loop of `compare` (compare_v42.py lines 257-276): a
non-`Scenario` element raises a `ValueError` (this check sits outside the inner
`try`, so it aborts the whole call); a `Scenario` element is processed by the
inner `try`, and is silently skipped when that fails. -/
def process_elems (alpha_h_min alpha_decay_max beta_h_min : ℚ) (steps : ℕ) :
    List CompareElem → Except String (List RankEntry)
  | [] => Except.ok []
  | CompareElem.nonScenario t :: _ =>
      Except.error ("Elemento debe ser Scenario, recibido " ++ t)
  | CompareElem.scen s :: rest =>
    match process_elems alpha_h_min alpha_decay_max beta_h_min steps rest with
    | Except.error e => Except.error e
    | Except.ok rs =>
      match process_scenario s alpha_h_min alpha_decay_max beta_h_min steps with
      | some r => Except.ok (r :: rs)
      | none => Except.ok rs

/-- The ranking order of `compare` (compare_v42.py lines 279-281):
Python's stable `list.sort` with key `(-H_eff, dH_eff_dt)`. -/
def rankLE (a b : RankEntry) : Prop :=
  b.H_eff < a.H_eff ∨ (a.H_eff = b.H_eff ∧ a.dH_eff_dt ≤ b.dH_eff_dt)

instance : DecidableRel rankLE := fun a b => by
  unfold rankLE
  infer_instance

/-- Embedding of `compare` (compare_v42.py lines 212-291). The empty-list check
precedes all validation, as in the source; Python's stable `list.sort` is
modelled by `List.insertionSort` (stable for a total preorder). -/
def compare (arg : CompareArg) (alpha_h_min alpha_decay_max beta_h_min : ℚ) (steps : ℕ) :
    Except String (List RankEntry) :=
  match arg with
  | CompareArg.nonList t => Except.error ("scenarios debe ser lista, recibido " ++ t)
  | CompareArg.listArg [] => Except.ok []
  | CompareArg.listArg xs => do
    let _ ← validate_steps steps
    let _ ← validate_positive_float alpha_h_min "alpha_h_min" none true
    let _ ← validate_positive_float alpha_decay_max "alpha_decay_max" none true
    let _ ← validate_positive_float beta_h_min "beta_h_min" none true
    let rs ← process_elems alpha_h_min alpha_decay_max beta_h_min steps xs
    pure (List.insertionSort rankLE rs)

end CompareV42

namespace CompareV42

/-- IEEE-754 double values as far as `classify` observes them: a finite value
(exactly represented), the two infinities, or NaN. Only order comparisons are
needed, and those are exact on this fragment. -/
inductive PyFloat where
  | val (q : ℚ)
  | inf
  | ninf
  | nan
  deriving DecidableEq

/-- The IEEE `<` comparison on `PyFloat` (any comparison with NaN is false). -/
def PyFloat.lt : PyFloat → PyFloat → Bool
  | PyFloat.nan, _ => false
  | _, PyFloat.nan => false
  | PyFloat.val q, PyFloat.val r => decide (q < r)
  | PyFloat.val _, PyFloat.inf => true
  | PyFloat.val _, PyFloat.ninf => false
  | PyFloat.inf, _ => false
  | PyFloat.ninf, PyFloat.ninf => false
  | PyFloat.ninf, _ => true

/-- Whether a `PyFloat` is a finite number (`math.isfinite`). -/
def PyFloat.isFinite : PyFloat → Bool
  | PyFloat.val _ => true
  | _ => false

/-- `value < 0` as Python evaluates it on a float (false for NaN and `+inf`). -/
def PyFloat.isNegative (x : PyFloat) : Bool :=
  PyFloat.lt x (PyFloat.val 0)

/-- `validate_positive_float` with `allow_zero=True` and no max, exactly as
`classify` calls it, over IEEE float values: the only numeric test the source
performs is `value < 0`. -/
def validate_positive_float_ieee (value : PyFloat) (name : String) : Except String PyFloat :=
  if PyFloat.isNegative value then Except.error (name ++ " no puede ser negativo")
  else Except.ok value

/-- Embedding of `classify` (compare_v42.py lines 156-206) over IEEE float
values, used to settle the finiteness claim; on finite inputs it agrees with
`classify` above. -/
def classifyFloat (H_eff dH alpha_h_min alpha_decay_max beta_h_min : PyFloat) :
    Except String String := do
  let H_eff ← validate_positive_float_ieee H_eff "H_eff"
  let dH ← validate_positive_float_ieee dH "dH"
  let alpha_h_min ← validate_positive_float_ieee alpha_h_min "alpha_h_min"
  let alpha_decay_max ← validate_positive_float_ieee alpha_decay_max "alpha_decay_max"
  let beta_h_min ← validate_positive_float_ieee beta_h_min "beta_h_min"
  if PyFloat.lt alpha_h_min H_eff ∧ PyFloat.lt dH alpha_decay_max then pure "Alpha"
  else if PyFloat.lt beta_h_min H_eff then pure "Beta"
  else pure "Gamma"

end CompareV42

namespace Demo

/-- Embedding of the `Node` class (demo.py lines 30-44). -/
structure Node where
  name : String
  capacity : ℚ
  load : ℚ
  deriving DecidableEq

/-- `Node.slack` (demo.py lines 38-41): `max(self.capacity - self.load, 0)`. -/
def Node.slack (n : Node) : ℚ :=
  max (n.capacity - n.load) 0

/-- An undirected `networkx.Graph` as far as demo.py observes it: node list in
insertion order and deduplicated edge list (networkx merges duplicate edges). -/
structure Graph where
  nodes : List String
  edges : List (String × String)
  deriving DecidableEq

/-- `G.add_node`: appends the node if not already present. -/
def Graph.add_node (G : Graph) (v : String) : Graph :=
  if v ∈ G.nodes then G else ⟨G.nodes ++ [v], G.edges⟩

/-- Whether the (undirected) edge `a-b` is already in the graph. -/
def Graph.hasEdge (G : Graph) (a b : String) : Bool :=
  G.edges.any (fun e => (e.1 = a ∧ e.2 = b) ∨ (e.1 = b ∧ e.2 = a))

/-- `G.add_edge(a, b)`: adds missing endpoints as nodes and merges a duplicate
edge (the friction attribute is observational only and is not modelled). -/
def Graph.add_edge (G : Graph) (a b : String) : Graph :=
  let G1 := (G.add_node a).add_node b
  if G1.hasEdge a b then G1 else ⟨G1.nodes, G1.edges ++ [(a, b)]⟩

/-- `G.degree(v)`: number of incident edges, counting a self-loop twice,
as networkx does. -/
def Graph.degree (G : Graph) (v : String) : ℕ :=
  (G.edges.map (fun e =>
    (if e.1 = v then 1 else 0) + (if e.2 = v then 1 else 0))).sum

/-- `G.number_of_edges()`. -/
def Graph.number_of_edges (G : Graph) : ℕ :=
  G.edges.length

/-- `max(degrees.values()) if degrees else 1` (demo.py line 154), where
`degrees = dict(G.degree())` ranges over the graph's nodes; on a non-empty
node list the fold computes exactly Python's `max` of the degree values. -/
def maxDegree (G : Graph) : ℕ :=
  if G.nodes = [] then 1
  else (G.nodes.map G.degree).foldr max 0

/-- `H = sum(n.slack for n in nodes.values())` (demo.py line 146); the dict is
modelled as its (unique-keyed) item list. -/
def metricsH (nodes : List (String × Node)) : ℚ :=
  (nodes.map (fun p => p.2.slack)).sum

/-- The `H_eff` computation of `compute_metrics` (demo.py lines 148-160):
zero on an edgeless graph, otherwise slack weighted by degree normalized
against the current maximum degree, over entities with positive slack that
are nodes of the graph (`name in degrees`). -/
def metricsHeff (G : Graph) (nodes : List (String × Node)) : ℚ :=
  if G.number_of_edges = 0 then 0
  else
    (nodes.map (fun p =>
      if 0 < p.2.slack ∧ p.1 ∈ G.nodes then
        p.2.slack * ((G.degree p.1 : ℚ) / (maxDegree G : ℚ))
      else 0)).sum

/-- The per-entity utilization list (demo.py line 163):
`load / capacity if capacity > 0 else 0`. -/
def utilizations (nodes : List (String × Node)) : List ℚ :=
  nodes.map (fun p => if 0 < p.2.capacity then p.2.load / p.2.capacity else 0)

/-- The population variance of the utilizations (demo.py lines 166-168). -/
def metricsVariance (nodes : List (String × Node)) : ℚ :=
  let us := utilizations nodes
  if us = [] then 0
  else
    let mean := us.sum / (us.length : ℚ)
    ((us.map (fun u => (u - mean) ^ 2)).sum) / (us.length : ℚ)

/-- `S = variance ** 0.5` (demo.py line 169). -/
noncomputable def metricsS (nodes : List (String × Node)) : ℝ :=
  Real.sqrt (metricsVariance nodes)

/-- Embedding of `compute_metrics` (demo.py lines 115-179): the empty-input
early return, then `(H, H_eff, S)`. -/
noncomputable def compute_metrics (G : Graph) (nodes : List (String × Node)) : ℚ × ℚ × ℝ :=
  match nodes with
  | [] => (0, 0, 0)
  | _ => (metricsH nodes, metricsHeff G nodes, metricsS nodes)

/-- The entropy branch `if not utilizations: S = 0.0` is dead code for
non-empty input; `metricsVariance`'s guard mirrors it. -/
def validate_node_count (n : ℕ) : Except String ℕ :=
  if 1 ≤ n ∧ n ≤ 100 then Except.ok n
  else Except.error "Numero de nodos fuera de rango [1, 100]"

/-- The random source of `build_graph`, abstracted as oracles: per-node
capacity and load draws (`randint(80, 120)`, `randint(40, cap)`), per-iteration
node-pair samples (`rng.sample(node_list, 2)`), and frictions
(`rng.uniform(0.1, 0.5)`, observational only). -/
structure DemoRng where
  capacityDraw : ℕ → ℕ
  loadDraw : ℕ → ℕ
  pick : ℕ → String × String
  frictionDraw : ℕ → ℚ

/-- The node-construction loop of `build_graph` (demo.py lines 86-91). -/
def buildNodes (n : ℕ) (rng : DemoRng) : List (String × Node) :=
  (List.range n).map (fun i =>
    ("N" ++ toString i, ⟨"N" ++ toString i, (rng.capacityDraw i : ℚ), (rng.loadDraw i : ℚ)⟩))

/-- The edge loop of `build_graph` (demo.py lines 94-99): `n + 2` iterations,
each aborting the whole loop (`break`) when fewer than two node names exist,
otherwise inserting one sampled edge. Returns the graph together with the
number of `add_edge` calls performed. -/
def addRandomEdges (rng : DemoRng) (names : List String) : ℕ → ℕ → Graph → Graph × ℕ
  | 0, _, G => (G, 0)
  | m + 1, k, G =>
    if names.length < 2 then (G, 0)
    else
      let ab := rng.pick k
      let res := addRandomEdges rng names m (k + 1) (G.add_edge ab.1 ab.2)
      (res.1, res.2 + 1)

/-- The body of `build_graph` after validation (demo.py lines 83-102),
returning the graph, the node map, and the number of edge insertions. -/
def build_graph_core (n : ℕ) (rng : DemoRng) : Graph × List (String × Node) × ℕ :=
  let nodes := buildNodes n rng
  let G0 : Graph := nodes.foldl (fun G p => G.add_node p.1) ⟨[], []⟩
  let res := addRandomEdges rng (nodes.map (fun p => p.1)) (n + 2) 0 G0
  (res.1, nodes, res.2)

/-- Embedding of `build_graph` (demo.py lines 62-109). -/
def build_graph (n : ℕ) (rng : DemoRng) : Except String (Graph × List (String × Node)) :=
  match validate_node_count n with
  | Except.error e => Except.error e
  | Except.ok n =>
    let res := build_graph_core n rng
    Except.ok (res.1, res.2.1)

end Demo

namespace MclChess

/-- The six chess piece types (mcl_chess.py `PIECE_CAPACITY` keys). -/
inductive PieceType where
  | pawn
  | knight
  | bishop
  | rook
  | queen
  | king
  deriving DecidableEq

/-- `PIECE_CAPACITY` (mcl_chess.py lines 37-44). -/
def PIECE_CAPACITY : PieceType → ℕ
  | PieceType.pawn => 1
  | PieceType.knight => 3
  | PieceType.bishop => 3
  | PieceType.rook => 5
  | PieceType.queen => 9
  | PieceType.king => 10

/-- `ACCESS_WEIGHT = 0.5` (mcl_chess.py line 47). -/
def ACCESS_WEIGHT : ℚ := 1 / 2

/-- A board's piece map as `compute_holistic_metrics` observes it: for each
occupied square, the piece's type together with its mobility
`len(list(board.attacks(square)))`. The chess move generator itself is an
external collaborator; quantifying over arbitrary mobility values covers
every reachable board. -/
abbrev BoardPieces : Type := List (PieceType × ℕ)

/-- The per-piece `H_eff` contribution (mcl_chess.py lines 109-114):
`slack * min(mobility / 8, 1) * ACCESS_WEIGHT` when mobility is positive,
zero otherwise (`slack = capacity`, line 103). -/
def pieceHeff (p : PieceType × ℕ) : ℚ :=
  if 0 < p.2 then
    (PIECE_CAPACITY p.1 : ℚ) * min ((p.2 : ℚ) / 8) 1 * ACCESS_WEIGHT
  else 0

/-- Embedding of `compute_holistic_metrics` (mcl_chess.py lines 53-124):
`H` sums the capacities, `H_eff` the mobility-weighted contributions.
(No piece type maps to capacity 0, so the `capacity == 0` skip is dead code.) -/
def compute_holistic_metrics (pieces : BoardPieces) : ℚ × ℚ :=
  ((pieces.map (fun p => (PIECE_CAPACITY p.1 : ℚ))).sum,
   (pieces.map pieceHeff).sum)

end MclChess

namespace RateLimiter

/-- Embedding of `SimpleRateLimiter`'s state (rate_limiter.py lines 78-92);
timestamps are rationals (exact `time.time()` values). -/
structure SimpleRateLimiter where
  max_calls : ℕ
  time_window : ℚ
  calls : List ℚ
  deriving DecidableEq

/-- Embedding of `is_allowed` (rate_limiter.py lines 94-111) at clock reading
`now`: purge expired timestamps, admit iff fewer than `max_calls` remain,
recording the admission. Returns the decision and the new state. -/
def is_allowed (L : SimpleRateLimiter) (now : ℚ) : Bool × SimpleRateLimiter :=
  let kept := L.calls.filter (fun t => decide (now - t < L.time_window))
  if kept.length < L.max_calls then
    (true, ⟨L.max_calls, L.time_window, kept ++ [now]⟩)
  else
    (false, ⟨L.max_calls, L.time_window, kept⟩)

/-- Embedding of `time_until_next_allowed` (rate_limiter.py lines 113-127);
`none` models the `min([])` exception on an empty call list. -/
def time_until_next_allowed (L : SimpleRateLimiter) (now : ℚ) : Option ℚ :=
  if L.calls.length < L.max_calls then some 0
  else (L.calls.min?).map (fun oldest => max (L.time_window - (now - oldest)) 0)

/-- Run a sequence of `is_allowed` checks at the given (monotone) clock
readings; returns the decision trace and the final state. -/
def run : SimpleRateLimiter → List ℚ → List Bool × SimpleRateLimiter
  | L, [] => ([], L)
  | L, t :: ts =>
    let step := is_allowed L t
    let rest := run step.2 ts
    (step.1 :: rest.1, rest.2)

/-- The timestamps admitted (decision `true`) along a run. -/
def admittedTimes : SimpleRateLimiter → List ℚ → List ℚ
  | _, [] => []
  | L, t :: ts =>
    let step := is_allowed L t
    if step.1 then t :: admittedTimes step.2 ts else admittedTimes step.2 ts

/-- Warning kinds of `validate_computational_cost` (rate_limiter.py 193-196). -/
inductive CostWarning where
  | blocking
  | advisory
  deriving DecidableEq

/-- The result dict of `validate_computational_cost`. -/
structure CostEstimate where
  allowed : Bool
  cost : ℚ
  warning : Option CostWarning
  deriving DecidableEq

/-- Embedding of `validate_computational_cost` (rate_limiter.py lines 161-198).
`max_nodes` is optional (`None` contributes 0); a zero count is falsy in
Python, and the `if max_moves else 0` guard coincides with plain division. -/
def validate_computational_cost (max_moves : ℤ) (max_nodes : Option ℤ) (warn_threshold : ℚ) :
    CostEstimate :=
  let move_cost : ℚ := if max_moves ≠ 0 then (max_moves : ℚ) / 500 else 0
  let node_cost : ℚ :=
    match max_nodes with
    | none => 0
    | some k => if k ≠ 0 then (k : ℚ) / 1000 else 0
  let total_cost := max move_cost node_cost
  ⟨decide (total_cost ≤ 1), total_cost,
    if 1 < total_cost then some CostWarning.blocking
    else if warn_threshold < total_cost then some CostWarning.advisory
    else none⟩

end RateLimiter

namespace CompareV42

theorem simulateLoop_length (decay : ℚ) (k : ℕ) :
    ∀ H : ℚ, (simulateLoop H decay k).length = k := by
  induction k with
  | zero => intro H; rfl
  | succ n ih => intro H; simp [simulateLoop, ih]

theorem simulateLoop_getD_zero (H decay : ℚ) (k : ℕ) (hk : 0 < k) :
    (simulateLoop H decay k).getD 0 0 = H := by
  cases k with
  | zero => omega
  | succ n => simp [simulateLoop]

theorem simulateLoop_getD_succ (decay : ℚ) (k : ℕ) :
    ∀ (H : ℚ) (i : ℕ), i + 1 < k →
      (simulateLoop H decay k).getD (i + 1) 0 = max ((simulateLoop H decay k).getD i 0 - decay) 0 := by
  induction k with
  | zero => intro H i h; omega
  | succ n ih =>
    intro H i h
    match i with
    | 0 =>
      have hn : 0 < n := by omega
      cases n with
      | zero => omega
      | succ m => simp [simulateLoop]
    | j + 1 =>
      have hj : j + 1 < n := by omega
      simp only [simulateLoop, List.getD_cons_succ]
      exact ih (max (H - decay) 0) j hj

theorem simulateLoop_nonneg (decay : ℚ) (k : ℕ) :
    ∀ H : ℚ, 0 ≤ H → ∀ x ∈ simulateLoop H decay k, 0 ≤ x := by
  induction k with
  | zero => intro H _ x hx; simp [simulateLoop] at hx
  | succ n ih =>
    intro H hH x hx
    simp only [simulateLoop, List.mem_cons] at hx
    rcases hx with rfl | hx
    · exact hH
    · exact ih (max (H - decay) 0) (le_max_right _ _) x hx

end CompareV42

/-- C3: for a validated scenario (`H_eff_init > 0`, `decay > 0`) and `steps ∈ [1, 1000]`,
`simulate` returns exactly `steps` values with `values[0] = H_eff_init` and
`values[i] = max(values[i-1] - decay, 0)`; the series is non-increasing, never
negative, and absorbing at zero; concretely `simulate` of `(10, 2)` for 5 steps
is `[10, 8, 6, 4, 2]`. -/
theorem C3_simulate (s : CompareV42.Scenario) (steps : ℕ)
    (hinit : 0 < s.H_eff_init) (hdecay : 0 < s.decay)
    (h1 : 1 ≤ steps) (h2 : steps ≤ 1000) :
    ∃ vs : List ℚ,
      s.simulate steps = Except.ok vs ∧
      vs.length = steps ∧
      vs.getD 0 0 = s.H_eff_init ∧
      (∀ i : ℕ, i + 1 < steps → vs.getD (i + 1) 0 = max (vs.getD i 0 - s.decay) 0) ∧
      (∀ i : ℕ, i + 1 < steps → vs.getD (i + 1) 0 ≤ vs.getD i 0) ∧
      (∀ x ∈ vs, 0 ≤ x) ∧
      (∀ i : ℕ, i + 1 < steps → vs.getD i 0 = 0 → vs.getD (i + 1) 0 = 0) ∧
      CompareV42.Scenario.simulate ⟨"T", 10, 2⟩ 5 = Except.ok [10, 8, 6, 4, 2] := by
  have hval : CompareV42.validate_steps steps = Except.ok steps := by
    unfold CompareV42.validate_steps
    rw [if_pos ⟨h1, h2⟩]
  refine ⟨CompareV42.simulateLoop s.H_eff_init s.decay steps, ?_, ?_, ?_, ?_, ?_, ?_, ?_, ?_⟩
  · unfold CompareV42.Scenario.simulate
    rw [hval]
  · exact CompareV42.simulateLoop_length _ _ _
  · exact CompareV42.simulateLoop_getD_zero _ _ _ (by omega)
  · exact fun i hi => CompareV42.simulateLoop_getD_succ _ _ _ i hi
  · intro i hi
    rw [CompareV42.simulateLoop_getD_succ _ _ _ i hi]
    have hlen : i < (CompareV42.simulateLoop s.H_eff_init s.decay steps).length := by
      rw [CompareV42.simulateLoop_length]; omega
    have hmem : (CompareV42.simulateLoop s.H_eff_init s.decay steps).getD i 0
        ∈ CompareV42.simulateLoop s.H_eff_init s.decay steps := by
      rw [List.getD_eq_getElem _ _ hlen]
      exact List.getElem_mem hlen
    have hx := CompareV42.simulateLoop_nonneg s.decay steps s.H_eff_init (le_of_lt hinit) _ hmem
    apply max_le (by linarith) hx
  · exact CompareV42.simulateLoop_nonneg s.decay steps s.H_eff_init (le_of_lt hinit)
  · intro i hi h0
    rw [CompareV42.simulateLoop_getD_succ _ _ _ i hi, h0]
    apply max_eq_right
    linarith
  · norm_num [CompareV42.Scenario.simulate, CompareV42.validate_steps, CompareV42.simulateLoop, max_def]

/-- C3 witness: the theorem applied to `Scenario("T", 10, 2)` with 5 steps. -/
theorem C3_simulate_witness :
    ((0:ℚ) < 10 ∧ (0:ℚ) < 2 ∧ 1 ≤ 5 ∧ 5 ≤ 1000) ∧
    (∃ vs : List ℚ,
      CompareV42.Scenario.simulate ⟨"T", 10, 2⟩ 5 = Except.ok vs ∧
      vs.length = 5 ∧
      vs.getD 0 0 = (⟨"T", 10, 2⟩ : CompareV42.Scenario).H_eff_init ∧
      (∀ i : ℕ, i + 1 < 5 → vs.getD (i + 1) 0 = max (vs.getD i 0 - (⟨"T", 10, 2⟩ : CompareV42.Scenario).decay) 0) ∧
      (∀ i : ℕ, i + 1 < 5 → vs.getD (i + 1) 0 ≤ vs.getD i 0) ∧
      (∀ x ∈ vs, 0 ≤ x) ∧
      (∀ i : ℕ, i + 1 < 5 → vs.getD i 0 = 0 → vs.getD (i + 1) 0 = 0) ∧
      CompareV42.Scenario.simulate ⟨"T", 10, 2⟩ 5 = Except.ok [10, 8, 6, 4, 2]) :=
  ⟨⟨by decide, by decide, by decide, by decide⟩,
    C3_simulate ⟨"T", 10, 2⟩ 5 (by decide) (by decide) (by decide) (by decide)⟩

open RateLimiter in
/-- C7: the cost estimate is `max(moves/500, nodes/1000)` (missing nodes
contribute 0), `allowed` iff `cost ≤ 1`, blocking warning above 1, advisory
warning strictly between `warn_threshold` and 1, none otherwise; concretely 600
moves are blocked and 50 moves are allowed without warning. -/
theorem C7_cost_estimator (m : ℤ) (nodes : Option ℤ) (w : ℚ) :
    (validate_computational_cost m nodes w).cost
        = max ((m : ℚ) / 500) (((nodes.getD 0 : ℤ) : ℚ) / 1000) ∧
    ((validate_computational_cost m nodes w).allowed = true ↔
        (validate_computational_cost m nodes w).cost ≤ 1) ∧
    (1 < (validate_computational_cost m nodes w).cost →
        (validate_computational_cost m nodes w).warning = some CostWarning.blocking) ∧
    (w < (validate_computational_cost m nodes w).cost →
        (validate_computational_cost m nodes w).cost ≤ 1 →
        (validate_computational_cost m nodes w).warning = some CostWarning.advisory) ∧
    ((validate_computational_cost m nodes w).cost ≤ 1 →
        (validate_computational_cost m nodes w).cost ≤ w →
        (validate_computational_cost m nodes w).warning = none) ∧
    validate_computational_cost 600 none (7/10) = ⟨false, 6/5, some CostWarning.blocking⟩ ∧
    validate_computational_cost 50 none (7/10) = ⟨true, 1/10, none⟩ := by
  have hmove : (if m ≠ 0 then (m : ℚ) / 500 else 0) = (m : ℚ) / 500 := by
    split
    · rfl
    · rename_i h
      rw [not_not.mp h]
      norm_num
  have hnode : (match nodes with
      | none => (0 : ℚ)
      | some k => if k ≠ 0 then (k : ℚ) / 1000 else 0) = ((nodes.getD 0 : ℤ) : ℚ) / 1000 := by
    cases nodes with
    | none => norm_num
    | some k =>
      simp only [Option.getD_some]
      split
      · rfl
      · rename_i h
        rw [not_not.mp h]
        norm_num
  refine ⟨?_, ?_, ?_, ?_, ?_, ?_, ?_⟩
  · simp only [validate_computational_cost, hmove, hnode]
  · simp only [validate_computational_cost]
    exact decide_eq_true_iff
  · intro h
    simp only [validate_computational_cost] at h ⊢
    rw [if_pos h]
  · intro hw h1
    simp only [validate_computational_cost] at hw h1 ⊢
    rw [if_neg (by exact not_lt.mpr h1), if_pos hw]
  · intro h1 hw
    simp only [validate_computational_cost] at h1 hw ⊢
    rw [if_neg (by exact not_lt.mpr h1), if_neg (by exact not_lt.mpr hw)]
  · norm_num [validate_computational_cost, max_def]
  · norm_num [validate_computational_cost, max_def]

open RateLimiter in
/-- C7 witness: the theorem applied at 600 requested moves. -/
theorem C7_cost_estimator_witness :
    (validate_computational_cost 600 none (7/10)).cost
        = max ((600 : ℚ) / 500) ((((none : Option ℤ).getD 0 : ℤ) : ℚ) / 1000) ∧
    validate_computational_cost 600 none (7/10) = ⟨false, 6/5, some CostWarning.blocking⟩ ∧
    validate_computational_cost 50 none (7/10) = ⟨true, 1/10, none⟩ :=
  ⟨(C7_cost_estimator 600 none (7/10)).1,
   (C7_cost_estimator 600 none (7/10)).2.2.2.2.2.1,
   (C7_cost_estimator 600 none (7/10)).2.2.2.2.2.2⟩

namespace Demo

theorem slack_nonneg (n : Node) : 0 ≤ n.slack :=
  le_max_right _ _

theorem metricsH_nonneg (nodes : List (String × Node)) : 0 ≤ metricsH nodes := by
  apply List.sum_nonneg
  intro x hx
  obtain ⟨p, _, rfl⟩ := List.mem_map.mp hx
  exact slack_nonneg _

theorem le_foldr_max (l : List ℕ) (a : ℕ) (h : a ∈ l) : a ≤ l.foldr max 0 := by
  induction l with
  | nil => simp at h
  | cons b t ih =>
    simp only [List.foldr_cons]
    rcases List.mem_cons.mp h with rfl | h
    · exact le_max_left _ _
    · exact le_trans (ih h) (le_max_right _ _)

theorem degree_le_maxDegree (G : Graph) (v : String) (hv : v ∈ G.nodes) :
    G.degree v ≤ maxDegree G := by
  unfold maxDegree
  rw [if_neg (List.ne_nil_of_mem hv)]
  exact le_foldr_max _ _ (List.mem_map_of_mem G.degree hv)

theorem accessibility_mem_unit (G : Graph) (v : String) (hv : v ∈ G.nodes) :
    0 ≤ (G.degree v : ℚ) / (maxDegree G : ℚ) ∧ (G.degree v : ℚ) / (maxDegree G : ℚ) ≤ 1 := by
  constructor
  · apply div_nonneg <;> exact_mod_cast Nat.zero_le _
  · rcases Nat.eq_zero_or_pos (maxDegree G) with hm | hm
    · simp [hm]
    · rw [div_le_one (by exact_mod_cast hm)]
      exact_mod_cast degree_le_maxDegree G v hv

theorem heff_term_nonneg (G : Graph) (p : String × Node) :
    0 ≤ (if 0 < p.2.slack ∧ p.1 ∈ G.nodes then
      p.2.slack * ((G.degree p.1 : ℚ) / (maxDegree G : ℚ)) else 0) := by
  split
  · rename_i h
    exact mul_nonneg (le_of_lt h.1) (accessibility_mem_unit G p.1 h.2).1
  · exact le_refl 0

theorem heff_term_le_slack (G : Graph) (p : String × Node) :
    (if 0 < p.2.slack ∧ p.1 ∈ G.nodes then
      p.2.slack * ((G.degree p.1 : ℚ) / (maxDegree G : ℚ)) else 0) ≤ p.2.slack := by
  split
  · rename_i h
    exact mul_le_of_le_one_right (le_of_lt h.1) (accessibility_mem_unit G p.1 h.2).2
  · exact slack_nonneg _

theorem metricsHeff_nonneg (G : Graph) (nodes : List (String × Node)) :
    0 ≤ metricsHeff G nodes := by
  unfold metricsHeff
  split
  · exact le_refl 0
  · exact List.sum_nonneg fun x hx => by
      obtain ⟨p, _, rfl⟩ := List.mem_map.mp hx
      exact heff_term_nonneg G p

theorem metricsHeff_le_metricsH (G : Graph) (nodes : List (String × Node)) :
    metricsHeff G nodes ≤ metricsH nodes := by
  unfold metricsHeff
  split
  · exact metricsH_nonneg nodes
  · exact List.sum_le_sum fun p _ => heff_term_le_slack G p

end Demo

namespace MclChess

theorem pieceHeff_nonneg (p : PieceType × ℕ) : 0 ≤ pieceHeff p := by
  unfold pieceHeff
  split
  · apply mul_nonneg
    apply mul_nonneg
    · exact_mod_cast Nat.zero_le _
    · exact le_min (by positivity) zero_le_one
    · norm_num [ACCESS_WEIGHT]
  · exact le_refl 0

theorem pieceHeff_le_capacity (p : PieceType × ℕ) :
    pieceHeff p ≤ (PIECE_CAPACITY p.1 : ℚ) := by
  unfold pieceHeff
  split
  · have h1 : (PIECE_CAPACITY p.1 : ℚ) * min ((p.2 : ℚ) / 8) 1 ≤ (PIECE_CAPACITY p.1 : ℚ) :=
      mul_le_of_le_one_right (by exact_mod_cast Nat.zero_le _) (min_le_right _ _)
    have h2 : (PIECE_CAPACITY p.1 : ℚ) * min ((p.2 : ℚ) / 8) 1 * ACCESS_WEIGHT
        ≤ (PIECE_CAPACITY p.1 : ℚ) * min ((p.2 : ℚ) / 8) 1 := by
      apply mul_le_of_le_one_right
      · apply mul_nonneg
        · exact_mod_cast Nat.zero_le _
        · exact le_min (by positivity) zero_le_one
      · norm_num [ACCESS_WEIGHT]
    linarith
  · exact_mod_cast Nat.zero_le _

theorem holistic_H_nonneg (pieces : BoardPieces) :
    0 ≤ (compute_holistic_metrics pieces).1 := by
  apply List.sum_nonneg
  intro x hx
  obtain ⟨p, _, rfl⟩ := List.mem_map.mp hx
  exact_mod_cast Nat.zero_le _

theorem holistic_Heff_nonneg (pieces : BoardPieces) :
    0 ≤ (compute_holistic_metrics pieces).2 := by
  apply List.sum_nonneg
  intro x hx
  obtain ⟨p, _, rfl⟩ := List.mem_map.mp hx
  exact pieceHeff_nonneg p

theorem holistic_Heff_le_H (pieces : BoardPieces) :
    (compute_holistic_metrics pieces).2 ≤ (compute_holistic_metrics pieces).1 :=
  List.sum_le_sum fun p _ => pieceHeff_le_capacity p

end MclChess

namespace Demo

theorem compute_metrics_H_nonneg (G : Graph) (nodes : List (String × Node)) :
    0 ≤ (compute_metrics G nodes).1 := by
  cases nodes with
  | nil => exact le_refl 0
  | cons p ps =>
    simp only [compute_metrics]
    exact metricsH_nonneg _

theorem compute_metrics_Heff_nonneg (G : Graph) (nodes : List (String × Node)) :
    0 ≤ (compute_metrics G nodes).2.1 := by
  cases nodes with
  | nil => exact le_refl 0
  | cons p ps =>
    simp only [compute_metrics]
    exact metricsHeff_nonneg G _

theorem compute_metrics_Heff_le_H (G : Graph) (nodes : List (String × Node)) :
    (compute_metrics G nodes).2.1 ≤ (compute_metrics G nodes).1 := by
  cases nodes with
  | nil => exact le_refl 0
  | cons p ps =>
    simp only [compute_metrics]
    exact metricsHeff_le_metricsH G _

theorem compute_metrics_S_nonneg (G : Graph) (nodes : List (String × Node)) :
    0 ≤ (compute_metrics G nodes).2.2 := by
  cases nodes with
  | nil => exact le_refl 0
  | cons p ps =>
    simp only [compute_metrics]
    exact Real.sqrt_nonneg _

end Demo

/-- C1: for every accepted entity set (graph domain: any node map with positive
capacity and non-negative load, plus a graph; board domain: any piece map), the
metrics snapshot satisfies `H ≥ 0`, `0 ≤ H_eff ≤ H`, and (graph domain, where
`S` is computed) `S ≥ 0`. -/
theorem C1_metrics_invariants (G : Demo.Graph) (nodes : List (String × Demo.Node))
    (pieces : MclChess.BoardPieces)
    (_hcap : ∀ p ∈ nodes, 0 < p.2.capacity) (_hload : ∀ p ∈ nodes, 0 ≤ p.2.load) :
    0 ≤ (Demo.compute_metrics G nodes).1 ∧
    0 ≤ (Demo.compute_metrics G nodes).2.1 ∧
    (Demo.compute_metrics G nodes).2.1 ≤ (Demo.compute_metrics G nodes).1 ∧
    0 ≤ (Demo.compute_metrics G nodes).2.2 ∧
    0 ≤ (MclChess.compute_holistic_metrics pieces).1 ∧
    0 ≤ (MclChess.compute_holistic_metrics pieces).2 ∧
    (MclChess.compute_holistic_metrics pieces).2 ≤ (MclChess.compute_holistic_metrics pieces).1 :=
  ⟨Demo.compute_metrics_H_nonneg G nodes, Demo.compute_metrics_Heff_nonneg G nodes,
   Demo.compute_metrics_Heff_le_H G nodes, Demo.compute_metrics_S_nonneg G nodes,
   MclChess.holistic_H_nonneg pieces, MclChess.holistic_Heff_nonneg pieces,
   MclChess.holistic_Heff_le_H pieces⟩

/-- C1 witness: the theorem applied to a two-node graph with one free node and
a queen with mobility 5. -/
theorem C1_metrics_invariants_witness :
    ((∀ p ∈ [("N0", (⟨"N0", 100, 40⟩ : Demo.Node))], 0 < p.2.capacity) ∧
     (∀ p ∈ [("N0", (⟨"N0", 100, 40⟩ : Demo.Node))], 0 ≤ p.2.load)) ∧
    (0 ≤ (Demo.compute_metrics ⟨["N0"], [("N0", "N0")]⟩ [("N0", ⟨"N0", 100, 40⟩)]).1 ∧
     0 ≤ (Demo.compute_metrics ⟨["N0"], [("N0", "N0")]⟩ [("N0", ⟨"N0", 100, 40⟩)]).2.1 ∧
     (Demo.compute_metrics ⟨["N0"], [("N0", "N0")]⟩ [("N0", ⟨"N0", 100, 40⟩)]).2.1
        ≤ (Demo.compute_metrics ⟨["N0"], [("N0", "N0")]⟩ [("N0", ⟨"N0", 100, 40⟩)]).1 ∧
     0 ≤ (Demo.compute_metrics ⟨["N0"], [("N0", "N0")]⟩ [("N0", ⟨"N0", 100, 40⟩)]).2.2 ∧
     0 ≤ (MclChess.compute_holistic_metrics [(MclChess.PieceType.queen, 5)]).1 ∧
     0 ≤ (MclChess.compute_holistic_metrics [(MclChess.PieceType.queen, 5)]).2 ∧
     (MclChess.compute_holistic_metrics [(MclChess.PieceType.queen, 5)]).2
        ≤ (MclChess.compute_holistic_metrics [(MclChess.PieceType.queen, 5)]).1) :=
  ⟨⟨by decide, by decide⟩,
    C1_metrics_invariants ⟨["N0"], [("N0", "N0")]⟩ [("N0", ⟨"N0", 100, 40⟩)]
      [(MclChess.PieceType.queen, 5)] (by decide) (by decide)⟩

/-- C9: when every accessibility signal is zero — an edgeless graph, or a board
position where every piece has zero mobility — `H_eff` is exactly 0, regardless
of `H`. -/
theorem C9_zero_accessibility (G : Demo.Graph) (nodes : List (String × Demo.Node))
    (pieces : MclChess.BoardPieces)
    (hG : G.number_of_edges = 0) (hmob : ∀ p ∈ pieces, p.2 = 0) :
    (Demo.compute_metrics G nodes).2.1 = 0 ∧
    (MclChess.compute_holistic_metrics pieces).2 = 0 := by
  constructor
  · cases nodes with
    | nil => rfl
    | cons p ps =>
      simp only [Demo.compute_metrics, Demo.metricsHeff]
      rw [if_pos hG]
  · apply List.sum_eq_zero
    intro x hx
    obtain ⟨p, hp, rfl⟩ := List.mem_map.mp hx
    unfold MclChess.pieceHeff
    rw [if_neg]
    rw [hmob p hp]
    exact lt_irrefl 0

/-- C9 witness: an edgeless two-node graph whose only entity has slack 60
(so `H = 60 > 0`), and a lone queen with zero mobility. -/
theorem C9_zero_accessibility_witness :
    ((⟨["N0", "N1"], []⟩ : Demo.Graph).number_of_edges = 0 ∧
     (∀ p ∈ [(MclChess.PieceType.queen, 0)], p.2 = 0)) ∧
    ((Demo.compute_metrics ⟨["N0", "N1"], []⟩ [("N0", ⟨"N0", 100, 40⟩)]).2.1 = 0 ∧
     (MclChess.compute_holistic_metrics [(MclChess.PieceType.queen, 0)]).2 = 0) :=
  ⟨⟨by decide, by decide⟩,
    C9_zero_accessibility ⟨["N0", "N1"], []⟩ [("N0", ⟨"N0", 100, 40⟩)]
      [(MclChess.PieceType.queen, 0)] (by decide) (by decide)⟩

namespace Demo

theorem addRandomEdges_count (rng : DemoRng) (names : List String) (h2 : 2 ≤ names.length) :
    ∀ (m k : ℕ) (G : Graph), (addRandomEdges rng names m k G).2 = m := by
  intro m
  induction m with
  | zero => intro k G; rfl
  | succ n ih =>
    intro k G
    unfold addRandomEdges
    rw [if_neg (by omega)]
    simp only
    rw [ih]

/-- A fixed entropy source used by the concrete counterexample. -/
def constRng : DemoRng :=
  ⟨fun _ => 100, fun _ => 50, fun _ => ("N0", "N1"), fun _ => 1/4⟩

end Demo

/-- C8 (amended): for every `n ∈ [2, 100]` and every random source, the builder
performs exactly `n + 2` edge insertions, hence at least `n`. -/
theorem C8_edge_insertions (n : ℕ) (rng : Demo.DemoRng) (h2 : 2 ≤ n) (h100 : n ≤ 100) :
    (Demo.build_graph_core n rng).2.2 = n + 2 ∧ n ≤ (Demo.build_graph_core n rng).2.2 := by
  have hlen : ((Demo.buildNodes n rng).map (fun p => p.1)).length = n := by
    simp [Demo.buildNodes]
  have hcount : (Demo.build_graph_core n rng).2.2 = n + 2 := by
    unfold Demo.build_graph_core
    simp only
    rw [Demo.addRandomEdges_count rng _ (by omega)]
  exact ⟨hcount, by omega⟩

/-- C8 witness: the amended theorem applied at `n = 6`. -/
theorem C8_edge_insertions_witness :
    (2 ≤ 6 ∧ 6 ≤ 100) ∧
    ((Demo.build_graph_core 6 Demo.constRng).2.2 = 6 + 2 ∧
     6 ≤ (Demo.build_graph_core 6 Demo.constRng).2.2) :=
  ⟨⟨by decide, by decide⟩, C8_edge_insertions 6 Demo.constRng (by decide) (by decide)⟩

/-- C8 counterexample: at `n = 1` — accepted by the builder's validation — the
edge loop breaks immediately (fewer than two nodes), so zero random edges are
inserted, refuting "at least `n` random edges for every `n ∈ [1, 100]`". -/
theorem C8_counterexample :
    Demo.validate_node_count 1 = Except.ok 1 ∧
    (Demo.build_graph_core 1 Demo.constRng).2.2 = 0 ∧
    ¬ (1 ≤ (Demo.build_graph_core 1 Demo.constRng).2.2) := by
  have h0 : (Demo.build_graph_core 1 Demo.constRng).2.2 = 0 := rfl
  exact ⟨rfl, h0, by omega⟩

/-- C2 counterexample: on scenarios A(70, 1.0), B(50, 1.5), C(30, 2.0) with the
default thresholds and one step, the computed classes are not
Alpha, Beta, Gamma: scenario A fails the strict test `dH < alpha_decay_max`
(1.0 < 1.0) and is classified Beta. -/
theorem C2_counterexample :
    (CompareV42.compare
        (CompareV42.CompareArg.listArg
          [CompareV42.CompareElem.scen ⟨"A", 70, 1⟩,
           CompareV42.CompareElem.scen ⟨"B", 50, 3/2⟩,
           CompareV42.CompareElem.scen ⟨"C", 30, 2⟩])
        60 1 30 1).map (List.map CompareV42.RankEntry.cls)
      ≠ Except.ok ["Alpha", "Beta", "Gamma"] := by
  have h : CompareV42.compare
      (CompareV42.CompareArg.listArg
        [CompareV42.CompareElem.scen ⟨"A", 70, 1⟩,
         CompareV42.CompareElem.scen ⟨"B", 50, 3/2⟩,
         CompareV42.CompareElem.scen ⟨"C", 30, 2⟩])
      60 1 30 1 = Except.ok [⟨"A", 70, 1, "Beta"⟩, ⟨"B", 50, 3/2, "Beta"⟩, ⟨"C", 30, 2, "Gamma"⟩] := by
    norm_num [CompareV42.compare, CompareV42.process_elems, CompareV42.process_scenario,
      CompareV42.classify, CompareV42.validate_positive_float, CompareV42.check_max_val,
      CompareV42.current_h_eff, CompareV42.Scenario.simulate, CompareV42.validate_steps,
      CompareV42.simulateLoop, max_def, CompareV42.rankLE, List.insertionSort,
      List.orderedInsert, bind, Except.bind, pure, Except.pure]
  rw [h]
  simp [Except.map]

/-- C2 (amended): the three scenarios are ranked A, B, C in that order, but
with classes Beta, Beta, Gamma: A's decay 1.0 is not strictly below the default
`alpha_decay_max = 1.0`, so A is Beta, not Alpha. -/
theorem C2_compare_ranking :
    CompareV42.compare
        (CompareV42.CompareArg.listArg
          [CompareV42.CompareElem.scen ⟨"A", 70, 1⟩,
           CompareV42.CompareElem.scen ⟨"B", 50, 3/2⟩,
           CompareV42.CompareElem.scen ⟨"C", 30, 2⟩])
        60 1 30 1
      = Except.ok [⟨"A", 70, 1, "Beta"⟩, ⟨"B", 50, 3/2, "Beta"⟩, ⟨"C", 30, 2, "Gamma"⟩] := by
  norm_num [CompareV42.compare, CompareV42.process_elems, CompareV42.process_scenario,
    CompareV42.classify, CompareV42.validate_positive_float, CompareV42.check_max_val,
    CompareV42.current_h_eff, CompareV42.Scenario.simulate, CompareV42.validate_steps,
    CompareV42.simulateLoop, max_def, CompareV42.rankLE, List.insertionSort,
    List.orderedInsert, bind, Except.bind, pure, Except.pure]

namespace CompareV42

theorem process_elems_error_of_mem (a b c : ℚ) (st : ℕ) (t : String) :
    ∀ xs : List CompareElem, CompareElem.nonScenario t ∈ xs →
      ∃ msg, process_elems a b c st xs = Except.error msg := by
  intro xs
  induction xs with
  | nil => intro h; simp at h
  | cons x rest ih =>
    intro h
    cases x with
    | nonScenario u => exact ⟨_, rfl⟩
    | scen s =>
      have hrest : CompareElem.nonScenario t ∈ rest := by
        rcases List.mem_cons.mp h with heq | hm
        · exact absurd heq (by simp)
        · exact hm
      obtain ⟨m, hm⟩ := ih hrest
      refine ⟨m, ?_⟩
      simp only [process_elems, hm]

end CompareV42

/-- C4 (amended): `compare` fails immediately when the container is not a list,
and also when any element of the list is not a `Scenario` (that check sits
outside the per-scenario `try`); what is skipped with a diagnostic is a
`Scenario` element whose own computation fails (here: a scenario whose mutated
`decay = -1` makes `classify` raise), and the remaining scenarios are still
ranked. -/
theorem C4_partial_failure (t : String) (a b c : ℚ) (st : ℕ) (xs : List CompareV42.CompareElem)
    (hmem : CompareV42.CompareElem.nonScenario t ∈ xs) :
    CompareV42.compare (CompareV42.CompareArg.nonList t) a b c st
        = Except.error ("scenarios debe ser lista, recibido " ++ t) ∧
    (∃ msg, CompareV42.compare (CompareV42.CompareArg.listArg xs) a b c st
        = Except.error msg) ∧
    CompareV42.compare
        (CompareV42.CompareArg.listArg
          [CompareV42.CompareElem.scen ⟨"A", 70, 1⟩,
           CompareV42.CompareElem.scen ⟨"Bad", 50, -1⟩,
           CompareV42.CompareElem.scen ⟨"C", 30, 2⟩])
        60 1 30 1
      = Except.ok [⟨"A", 70, 1, "Beta"⟩, ⟨"C", 30, 2, "Gamma"⟩] := by
  refine ⟨rfl, ?_, ?_⟩
  · cases xs with
    | nil => simp at hmem
    | cons x rest =>
      obtain ⟨m, hm⟩ := CompareV42.process_elems_error_of_mem a b c st t (x :: rest) hmem
      cases hval : CompareV42.validate_steps st with
      | error e =>
        refine ⟨e, ?_⟩
        cases x <;>
          simp only [CompareV42.compare, hval, bind, Except.bind]
      | ok st' =>
        cases hva : CompareV42.validate_positive_float a "alpha_h_min" none true with
        | error e =>
          refine ⟨e, ?_⟩
          cases x <;>
            simp only [CompareV42.compare, hval, hva, bind, Except.bind]
        | ok a' =>
          cases hvb : CompareV42.validate_positive_float b "alpha_decay_max" none true with
          | error e =>
            refine ⟨e, ?_⟩
            cases x <;>
              simp only [CompareV42.compare, hval, hva, hvb, bind, Except.bind]
          | ok b' =>
            cases hvc : CompareV42.validate_positive_float c "beta_h_min" none true with
            | error e =>
              refine ⟨e, ?_⟩
              cases x <;>
                simp only [CompareV42.compare, hval, hva, hvb, hvc, bind, Except.bind]
            | ok c' =>
              refine ⟨m, ?_⟩
              cases x <;>
                simp only [CompareV42.compare, hval, hva, hvb, hvc, hm, bind, Except.bind]
  · norm_num [CompareV42.compare, CompareV42.process_elems, CompareV42.process_scenario,
      CompareV42.classify, CompareV42.validate_positive_float, CompareV42.check_max_val,
      CompareV42.current_h_eff, CompareV42.Scenario.simulate, CompareV42.validate_steps,
      CompareV42.simulateLoop, max_def, CompareV42.rankLE, List.insertionSort,
      List.orderedInsert, bind, Except.bind, pure, Except.pure]

/-- C4 witness: the amended theorem applied to a list containing a non-Scenario
string element. -/
theorem C4_partial_failure_witness :
    (CompareV42.CompareElem.nonScenario "str" ∈
      [CompareV42.CompareElem.scen ⟨"A", 70, 1⟩, CompareV42.CompareElem.nonScenario "str"]) ∧
    (CompareV42.compare (CompareV42.CompareArg.nonList "str") 60 1 30 1
        = Except.error ("scenarios debe ser lista, recibido " ++ "str") ∧
    (∃ msg, CompareV42.compare
        (CompareV42.CompareArg.listArg
          [CompareV42.CompareElem.scen ⟨"A", 70, 1⟩, CompareV42.CompareElem.nonScenario "str"])
        60 1 30 1 = Except.error msg) ∧
    CompareV42.compare
        (CompareV42.CompareArg.listArg
          [CompareV42.CompareElem.scen ⟨"A", 70, 1⟩,
           CompareV42.CompareElem.scen ⟨"Bad", 50, -1⟩,
           CompareV42.CompareElem.scen ⟨"C", 30, 2⟩])
        60 1 30 1
      = Except.ok [⟨"A", 70, 1, "Beta"⟩, ⟨"C", 30, 2, "Gamma"⟩]) :=
  ⟨by simp,
    C4_partial_failure "str" 60 1 30 1
      [CompareV42.CompareElem.scen ⟨"A", 70, 1⟩, CompareV42.CompareElem.nonScenario "str"]
      (by simp)⟩

/-- C4 counterexample: a list whose middle element is a string (not a Scenario)
makes `compare` fail outright instead of skipping it — refuting both "a single
malformed element is skipped" and "fails immediately only when the container is
not a list". -/
theorem C4_counterexample :
    CompareV42.compare
        (CompareV42.CompareArg.listArg
          [CompareV42.CompareElem.scen ⟨"A", 70, 1⟩,
           CompareV42.CompareElem.nonScenario "str",
           CompareV42.CompareElem.scen ⟨"B", 50, 3/2⟩])
        60 1 30 1
      = Except.error "Elemento debe ser Scenario, recibido str" := by
  norm_num [CompareV42.compare, CompareV42.process_elems, CompareV42.process_scenario,
    CompareV42.classify, CompareV42.validate_positive_float, CompareV42.check_max_val,
    CompareV42.current_h_eff, CompareV42.Scenario.simulate, CompareV42.validate_steps,
    CompareV42.simulateLoop, max_def, bind, Except.bind, pure, Except.pure]
  rfl

/-- C5 (amended): `classify` raises a validation failure iff one of its five
numeric inputs is negative (in the IEEE sense, so `-inf` counts but NaN and
`+inf` do not — the source never checks finiteness); whenever no input is
negative a tier among Alpha/Beta/Gamma is returned, including for non-finite
inputs. -/
theorem C5_classify_validation (a b c d e : CompareV42.PyFloat) :
    ((a.isNegative = true ∨ b.isNegative = true ∨ c.isNegative = true ∨
      d.isNegative = true ∨ e.isNegative = true) →
      ∃ msg, CompareV42.classifyFloat a b c d e = Except.error msg) ∧
    (a.isNegative = false → b.isNegative = false → c.isNegative = false →
      d.isNegative = false → e.isNegative = false →
      ∃ tier, CompareV42.classifyFloat a b c d e = Except.ok tier ∧
        (tier = "Alpha" ∨ tier = "Beta" ∨ tier = "Gamma")) := by
  constructor
  · intro h
    by_cases ha : a.isNegative = true
    · exact ⟨"H_eff no puede ser negativo", by simp [CompareV42.classifyFloat,
        CompareV42.validate_positive_float_ieee, ha, bind, Except.bind]⟩
    · by_cases hb : b.isNegative = true
      · exact ⟨"dH no puede ser negativo", by simp [CompareV42.classifyFloat,
          CompareV42.validate_positive_float_ieee, ha, hb, bind, Except.bind]⟩
      · by_cases hc : c.isNegative = true
        · exact ⟨"alpha_h_min no puede ser negativo", by simp [CompareV42.classifyFloat,
            CompareV42.validate_positive_float_ieee, ha, hb, hc, bind, Except.bind]⟩
        · by_cases hd : d.isNegative = true
          · exact ⟨"alpha_decay_max no puede ser negativo", by simp [CompareV42.classifyFloat,
              CompareV42.validate_positive_float_ieee, ha, hb, hc, hd, bind, Except.bind]⟩
          · by_cases he : e.isNegative = true
            · exact ⟨"beta_h_min no puede ser negativo", by simp [CompareV42.classifyFloat,
                CompareV42.validate_positive_float_ieee, ha, hb, hc, hd, he, bind, Except.bind]⟩
            · rcases h with h | h | h | h | h <;> simp [h] at ha hb hc hd he
  · intro ha hb hc hd he
    simp only [CompareV42.classifyFloat, CompareV42.validate_positive_float_ieee,
      ha, hb, hc, hd, he, if_false, bind, Except.bind, pure, Except.pure, Bool.false_eq_true]
    split_ifs
    · exact ⟨"Alpha", rfl, Or.inl rfl⟩
    · exact ⟨"Beta", rfl, Or.inr (Or.inl rfl)⟩
    · exact ⟨"Gamma", rfl, Or.inr (Or.inr rfl)⟩

/-- C5 witness: the amended theorem applied at `H_eff = +inf` and non-negative
finite remaining inputs. -/
theorem C5_classify_validation_witness :
    (CompareV42.PyFloat.inf.isNegative = false ∧
     (CompareV42.PyFloat.val 0).isNegative = false ∧
     (CompareV42.PyFloat.val 60).isNegative = false ∧
     (CompareV42.PyFloat.val 1).isNegative = false ∧
     (CompareV42.PyFloat.val 30).isNegative = false) ∧
    (∃ tier, CompareV42.classifyFloat CompareV42.PyFloat.inf (CompareV42.PyFloat.val 0)
        (CompareV42.PyFloat.val 60) (CompareV42.PyFloat.val 1) (CompareV42.PyFloat.val 30)
        = Except.ok tier ∧ (tier = "Alpha" ∨ tier = "Beta" ∨ tier = "Gamma")) :=
  ⟨⟨by decide, by decide, by decide, by decide, by decide⟩,
    (C5_classify_validation CompareV42.PyFloat.inf (CompareV42.PyFloat.val 0)
        (CompareV42.PyFloat.val 60) (CompareV42.PyFloat.val 1) (CompareV42.PyFloat.val 30)).2
      (by decide) (by decide) (by decide) (by decide) (by decide)⟩

/-- C5 counterexample: `classify` at `H_eff = +inf` (not finite) does not raise;
it returns the tier "Alpha", refuting "classify raises a validation failure
whenever an input is not finite". -/
theorem C5_counterexample :
    CompareV42.PyFloat.inf.isFinite = false ∧
    CompareV42.classifyFloat CompareV42.PyFloat.inf (CompareV42.PyFloat.val 0)
        (CompareV42.PyFloat.val 60) (CompareV42.PyFloat.val 1) (CompareV42.PyFloat.val 30)
      = Except.ok "Alpha" := by
  constructor
  · rfl
  · rfl

namespace CompareV42

theorem validate_positive_float_ok (v : ℚ) (name : String) (h : 0 ≤ v) :
    validate_positive_float v name none true = Except.ok v := by
  simp [validate_positive_float, check_max_val, not_lt.mpr h]

theorem process_elems_map_scen (a b c : ℚ) (st : ℕ) (xs : List Scenario) :
    process_elems a b c st (xs.map CompareElem.scen)
      = Except.ok (xs.filterMap (fun s => process_scenario s a b c st)) := by
  induction xs with
  | nil => rfl
  | cons s rest ih =>
    simp only [List.map_cons, process_elems, ih, List.filterMap_cons]
    cases h : process_scenario s a b c st <;> simp [h]

theorem simulateLoop_one (H d : ℚ) : simulateLoop H d 1 = [H] := rfl

theorem current_h_eff_eq_getLast (s : Scenario) (st : ℕ) (h1 : 1 ≤ st) :
    current_h_eff s st = ((simulateLoop s.H_eff_init s.decay st).getLast?).getD 0 := by
  unfold current_h_eff
  split
  · rfl
  · rename_i h
    have hst : st = 1 := by omega
    subst hst
    rw [simulateLoop_one]
    rfl

theorem compare_map_scen (xs : List Scenario) (a b c : ℚ) (st : ℕ)
    (h1 : 1 ≤ st) (h2 : st ≤ 1000) (ha : 0 ≤ a) (hb : 0 ≤ b) (hc : 0 ≤ c) :
    compare (CompareArg.listArg (xs.map CompareElem.scen)) a b c st
      = Except.ok (List.insertionSort rankLE
          (xs.filterMap (fun s => process_scenario s a b c st))) := by
  have hval : validate_steps st = Except.ok st := by
    unfold validate_steps
    rw [if_pos ⟨h1, h2⟩]
  cases xs with
  | nil => rfl
  | cons s rest =>
    simp only [List.map_cons, compare, hval, validate_positive_float_ok a _ ha,
      validate_positive_float_ok b _ hb, validate_positive_float_ok c _ hc,
      bind, Except.bind, pure, Except.pure]
    rw [show (CompareElem.scen s :: rest.map CompareElem.scen)
      = (s :: rest).map CompareElem.scen from rfl]
    rw [process_elems_map_scen]

end CompareV42

/-- C10: every ranking entry produced by `compare` on a list of scenarios
reports as `H_eff` the last element of that scenario's simulated series — the
`steps == 1` branch returning `H_eff_init` coincides with `series[-1]` since
the one-step series is `[H_eff_init]` — and reports the scenario's decay
constant as `dH_eff_dt`; so the branching implementation agrees with the
uniform final-value convention. -/
theorem C10_final_value_convention (xs : List CompareV42.Scenario) (a b c : ℚ) (st : ℕ)
    (h1 : 1 ≤ st) (h2 : st ≤ 1000) (ha : 0 ≤ a) (hb : 0 ≤ b) (hc : 0 ≤ c) :
    (∀ s : CompareV42.Scenario, CompareV42.current_h_eff s st
        = ((CompareV42.simulateLoop s.H_eff_init s.decay st).getLast?).getD 0) ∧
    (∀ out, CompareV42.compare (CompareV42.CompareArg.listArg (xs.map CompareV42.CompareElem.scen))
          a b c st = Except.ok out →
      ∀ r ∈ out, ∃ s ∈ xs, r.name = s.name ∧
        r.H_eff = ((CompareV42.simulateLoop s.H_eff_init s.decay st).getLast?).getD 0 ∧
        r.dH_eff_dt = s.decay) := by
  constructor
  · exact fun s => CompareV42.current_h_eff_eq_getLast s st h1
  · intro out hout r hr
    rw [CompareV42.compare_map_scen xs a b c st h1 h2 ha hb hc] at hout
    obtain rfl : List.insertionSort CompareV42.rankLE
        (xs.filterMap (fun s => CompareV42.process_scenario s a b c st)) = out :=
      Except.ok.inj hout
    have hr' : r ∈ xs.filterMap (fun s => CompareV42.process_scenario s a b c st) :=
      (List.mem_insertionSort CompareV42.rankLE).mp hr
    obtain ⟨s, hs, hps⟩ := List.mem_filterMap.mp hr'
    refine ⟨s, hs, ?_⟩
    unfold CompareV42.process_scenario at hps
    cases hsim : s.simulate st with
    | error e => rw [hsim] at hps; exact absurd hps (by simp)
    | ok series =>
      rw [hsim] at hps
      cases hcl : CompareV42.classify (CompareV42.current_h_eff s st) s.decay a b c with
      | error e => rw [hcl] at hps; exact absurd hps (by simp)
      | ok cls =>
        rw [hcl] at hps
        have hre : (⟨s.name, CompareV42.current_h_eff s st, s.decay, cls⟩ :
            CompareV42.RankEntry) = r := by
          exact Option.some.inj hps
        subst hre
        exact ⟨rfl, CompareV42.current_h_eff_eq_getLast s st h1, rfl⟩

/-- C10 witness: the theorem applied to the single scenario `("A", 70, 1)` with
one step and the default thresholds. -/
theorem C10_final_value_convention_witness :
    (1 ≤ 1 ∧ 1 ≤ 1000 ∧ (0:ℚ) ≤ 60 ∧ (0:ℚ) ≤ 1 ∧ (0:ℚ) ≤ 30) ∧
    ((∀ s : CompareV42.Scenario, CompareV42.current_h_eff s 1
        = ((CompareV42.simulateLoop s.H_eff_init s.decay 1).getLast?).getD 0) ∧
    (∀ out, CompareV42.compare
          (CompareV42.CompareArg.listArg
            (([⟨"A", 70, 1⟩] : List CompareV42.Scenario).map CompareV42.CompareElem.scen))
          60 1 30 1 = Except.ok out →
      ∀ r ∈ out, ∃ s ∈ ([⟨"A", 70, 1⟩] : List CompareV42.Scenario), r.name = s.name ∧
        r.H_eff = ((CompareV42.simulateLoop s.H_eff_init s.decay 1).getLast?).getD 0 ∧
        r.dH_eff_dt = s.decay)) :=
  ⟨⟨by decide, by decide, by decide, by decide, by decide⟩,
    C10_final_value_convention [⟨"A", 70, 1⟩] 60 1 30 1
      (by decide) (by decide) (by decide) (by decide) (by decide)⟩

namespace RateLimiter

theorem is_allowed_eq (L : SimpleRateLimiter) (now : ℚ) :
    is_allowed L now =
      if (L.calls.filter (fun t => decide (now - t < L.time_window))).length < L.max_calls then
        (true, ⟨L.max_calls, L.time_window,
          L.calls.filter (fun t => decide (now - t < L.time_window)) ++ [now]⟩)
      else
        (false, ⟨L.max_calls, L.time_window,
          L.calls.filter (fun t => decide (now - t < L.time_window))⟩) := rfl

theorem is_allowed_fields (L : SimpleRateLimiter) (now : ℚ) :
    ((is_allowed L now).2).max_calls = L.max_calls ∧
    ((is_allowed L now).2).time_window = L.time_window := by
  rw [is_allowed_eq]
  split <;> exact ⟨rfl, rfl⟩

theorem run_snd_fields (ts : List ℚ) :
    ∀ L : SimpleRateLimiter,
      ((run L ts).2).max_calls = L.max_calls ∧ ((run L ts).2).time_window = L.time_window := by
  induction ts with
  | nil => intro L; exact ⟨rfl, rfl⟩
  | cons t ts ih =>
    intro L
    simp only [run]
    obtain ⟨h1, h2⟩ := ih (is_allowed L t).2
    obtain ⟨h3, h4⟩ := is_allowed_fields L t
    exact ⟨h1.trans h3, h2.trans h4⟩

theorem is_allowed_purges (L : SimpleRateLimiter) (now : ℚ) (hW : 0 < L.time_window) :
    ∀ t ∈ ((is_allowed L now).2).calls, now - t < L.time_window := by
  rw [is_allowed_eq]
  split
  · intro t ht
    dsimp only at ht
    rcases List.mem_append.mp ht with ht | ht
    · exact of_decide_eq_true (List.mem_filter.mp ht).2
    · rw [List.mem_singleton.mp ht]
      simpa using hW
  · intro t ht
    dsimp only at ht
    exact of_decide_eq_true (List.mem_filter.mp ht).2

theorem run_snd_append (x : ℚ) (ts : List ℚ) :
    ∀ L : SimpleRateLimiter, (run L (ts ++ [x])).2 = (is_allowed (run L ts).2 x).2 := by
  induction ts with
  | nil => intro L; rfl
  | cons t ts ih =>
    intro L
    simp only [List.cons_append, run]
    exact ih (is_allowed L t).2

theorem admittedTimes_append (x : ℚ) (ts : List ℚ) :
    ∀ L : SimpleRateLimiter,
      admittedTimes L (ts ++ [x])
        = admittedTimes L ts ++ (if (is_allowed (run L ts).2 x).1 then [x] else []) := by
  induction ts with
  | nil =>
    intro L
    simp only [List.nil_append, admittedTimes, run]
  | cons t ts ih =>
    intro L
    simp only [List.cons_append, admittedTimes, run, List.append_eq]
    rw [ih (is_allowed L t).2]
    split <;> simp
theorem filter_window_collapse (A : List ℚ) (y x W : ℚ) (hyx : y ≤ x) :
    (A.filter (fun t => decide (y - t < W))).filter (fun t => decide (x - t < W))
      = A.filter (fun t => decide (x - t < W)) := by
  rw [List.filter_filter]
  apply List.filter_congr
  intro t _
  by_cases h : x - t < W
  · have h2 : y - t < W := by linarith
    simp [h, h2]
  · simp [h]

theorem run_characterization (M : ℕ) (W : ℚ) (hW : 0 < W) (zs : List ℚ) :
    ∀ x : ℚ, List.Sorted (· ≤ ·) (zs ++ [x]) →
      ((run ⟨M, W, []⟩ (zs ++ [x])).2).calls
        = (admittedTimes ⟨M, W, []⟩ (zs ++ [x])).filter (fun t => decide (x - t < W)) ∧
      ((run ⟨M, W, []⟩ (zs ++ [x])).2).calls.length ≤ M := by
  induction zs using List.reverseRecOn with
  | nil =>
    intro x _
    by_cases hM : 0 < M
    · constructor
      · simp [run, is_allowed, admittedTimes, hM, sub_self, hW]
      · simp only [run, is_allowed, admittedTimes]
        simp [hM]
        omega
    · have hM0 : M = 0 := by omega
      simp [run, is_allowed, admittedTimes, hM0, sub_self, hW]
  | append_singleton ys y ih =>
    intro x hs
    have hyx : y ≤ x := by
      have h := (List.pairwise_append.mp hs).2.2
      exact h y (by simp) x (by simp)
    have hsA : List.Sorted (· ≤ ·) (ys ++ [y]) := (List.pairwise_append.mp hs).1
    obtain ⟨hchar, hlen⟩ := ih y hsA
    have hfields := run_snd_fields (ys ++ [y]) (⟨M, W, []⟩ : SimpleRateLimiter)
    rw [run_snd_append x (ys ++ [y]), admittedTimes_append x (ys ++ [y])]
    set S := (run (⟨M, W, []⟩ : SimpleRateLimiter) (ys ++ [y])).2 with hSdef
    have hkept : S.calls.filter (fun t => decide (x - t < S.time_window))
        = (admittedTimes (⟨M, W, []⟩ : SimpleRateLimiter) (ys ++ [y])).filter
            (fun t => decide (x - t < W)) := by
      rw [hfields.2, hchar]
      exact filter_window_collapse _ y x W hyx
    by_cases hd : (S.calls.filter (fun t => decide (x - t < S.time_window))).length < S.max_calls
    · have hdec : (is_allowed S x).1 = true := by
        rw [is_allowed_eq, if_pos hd]
      have hcalls : (is_allowed S x).2.calls
          = S.calls.filter (fun t => decide (x - t < S.time_window)) ++ [x] := by
        rw [is_allowed_eq, if_pos hd]
      rw [hcalls, hdec, if_pos rfl]
      constructor
      · rw [List.filter_append, hkept]
        congr 1
        simp [sub_self, hW]
      · rw [List.length_append, List.length_singleton]
        have hdM : S.max_calls = M := hfields.1
        rw [hdM] at hd
        omega
    · have hdec : (is_allowed S x).1 = false := by
        rw [is_allowed_eq, if_neg hd]
      have hcalls : (is_allowed S x).2.calls
          = S.calls.filter (fun t => decide (x - t < S.time_window)) := by
        rw [is_allowed_eq, if_neg hd]
      rw [hcalls, hdec, if_neg (by simp)]
      constructor
      · rw [List.append_nil, hkept]
      · calc (S.calls.filter (fun t => decide (x - t < S.time_window))).length
            ≤ S.calls.length := List.length_filter_le _ _
          _ ≤ M := hlen

end RateLimiter

/-- C6: for `SimpleRateLimiter(3, 10)` the first 3 calls are admitted, the 4th
inside the window is rejected, and a call made once the oldest admitted
timestamp has aged past 10s is admitted again (trace at times 0, 1, 2, 3, 10.5);
every check purges timestamps older than the window from the state; and along
any monotone sequence of checks started from a fresh limiter, the number of
admitted calls lying within the trailing window of any check never exceeds
`max_calls` (instantiate `zs ++ [x]` with any prefix of the call times: the
decisions do not depend on later calls). -/
theorem C6_rate_limiter (L : RateLimiter.SimpleRateLimiter) (now : ℚ) (M : ℕ) (W : ℚ)
    (zs : List ℚ) (x : ℚ)
    (hL : 0 < L.time_window) (hW : 0 < W) (hs : List.Sorted (· ≤ ·) (zs ++ [x])) :
    (∀ t ∈ ((RateLimiter.is_allowed L now).2).calls, now - t < L.time_window) ∧
    ((RateLimiter.admittedTimes ⟨M, W, []⟩ (zs ++ [x])).filter
        (fun t => decide (x - t < W))).length ≤ M ∧
    (RateLimiter.run ⟨3, 10, []⟩ [0, 1, 2, 3, 21/2]).1 = [true, true, true, false, true] := by
  refine ⟨RateLimiter.is_allowed_purges L now hL, ?_, ?_⟩
  · obtain ⟨hchar, hlen⟩ := RateLimiter.run_characterization M W hW zs x hs
    rw [← hchar]
    exact hlen
  · norm_num [RateLimiter.run, RateLimiter.is_allowed, List.filter]

/-- C6 witness: the theorem applied to the concrete five-call trace. -/
theorem C6_rate_limiter_witness :
    ((0:ℚ) < 10 ∧ (0:ℚ) < 10 ∧ List.Sorted (· ≤ ·) ([0, 1, 2, 3] ++ [(21:ℚ)/2])) ∧
    ((∀ t ∈ ((RateLimiter.is_allowed ⟨3, 10, [0]⟩ 5).2).calls, 5 - t <
        (⟨3, 10, [0]⟩ : RateLimiter.SimpleRateLimiter).time_window) ∧
    ((RateLimiter.admittedTimes ⟨3, 10, []⟩ ([0, 1, 2, 3] ++ [(21:ℚ)/2])).filter
        (fun t => decide ((21:ℚ)/2 - t < 10))).length ≤ 3 ∧
    (RateLimiter.run ⟨3, 10, []⟩ [0, 1, 2, 3, 21/2]).1 = [true, true, true, false, true]) :=
  ⟨⟨by norm_num, by norm_num, by
      simp only [List.sorted_cons, List.cons_append, List.nil_append, List.mem_cons,
        List.mem_singleton, List.not_mem_nil]
      norm_num⟩,
    C6_rate_limiter ⟨3, 10, [0]⟩ 5 3 10 [0, 1, 2, 3] (21/2)
      (by norm_num) (by norm_num) (by
      simp only [List.sorted_cons, List.cons_append, List.nil_append, List.mem_cons,
        List.mem_singleton, List.not_mem_nil]
      norm_num)⟩
